import Mathlib

/-!
# Verification of the Ponder event-indexing engine

A shallow embedding, in Lean 4, of the core logic of the Ponder repository:

* `packages/core/src/handlers/EventHandlerService.ts` — watermark computation
  (`getNewEvents`), the serialized handler queue (`createEventQueue` /
  `processEvents` / `resetEventQueue`) and `buildLogEvent`;
* `packages/core/src/sync/workerPool.ts` — batch chunking in `execute`;
* the event-decoder worker (`processEvents` in the decoder worker file);
* `packages/graph-ts-ponder/src/common/conversion.ts` — `bytesToHex` /
  `hexToBytes`.

JavaScript numbers that can become `Infinity` (notably `Math.min()` of an
empty list) are modelled as `WithTop Int`.  External collaborators (the cache
store, viem's ABI codecs, user handler functions, the entity store) are
modelled as function-valued parameters: the engine only observes their
input/output behaviour.
-/

namespace Ponder

/-- JavaScript numbers as used for timestamps here: integers plus `+Infinity`
(`Math.min()` of an empty array). -/
abbrev JSNum := WithTop Int

/-- A cached interval row: `(startBlock, endBlock, endBlockTimestamp)` for one
source, as returned by `cacheStore.getCachedIntervals`. -/
structure CachedInterval where
  startBlock : Int
  endBlock : Int
  endBlockTimestamp : Int
deriving DecidableEq

/-- One item of a contract ABI.  Only the `type` tag is inspected by the code
under verification (the `constructor` filter in `buildLogEvent`); the rest of
the item is opaque. -/
structure AbiItem where
  type : String
  rest : String
deriving DecidableEq

/-- A configured contract (indexing source) from `resources.contracts`. -/
structure Contract where
  name : String
  address : String
  isIndexed : Bool
  startBlock : Int
  abi : List AbiItem
deriving DecidableEq

/-- A raw log row from the cache store. -/
structure Log where
  address : String
  logSortKey : Int
  blockHash : String
  transactionHash : String
  data : String
  topic0 : String
  topic1 : Option String
  topic2 : Option String
  topic3 : Option String
deriving DecidableEq

/-- A cached block row (only the fields read by the engine). -/
structure Block where
  hash : String
  number : Int
  timestamp : Int
deriving DecidableEq

/-- A cached transaction row. -/
structure Transaction where
  hash : String
deriving DecidableEq

/-- Errors thrown by the engine or by user handler code.  `eCanceled` is the
distinguished `E_CANCELED` value of the `async-mutex` library; the two
`NotFound` cases are the `new Error(...)` throws of `buildLogEvent`. -/
inductive JsError where
  | eCanceled
  | blockNotFound (hash : String)
  | transactionNotFound (hash : String)
  | userError (msg : String)
deriving DecidableEq

/-- Result of viem's `decodeEventLog`: an event name plus decoded args (the
args are opaque to the engine, which just forwards them as `params`). -/
structure DecodedLog where
  eventName : String
  args : String
deriving DecidableEq

/-- The decoded event handed to a user log handler:
`{ name, params, log, block, transaction }` built by `buildLogEvent`. -/
structure LogEvent where
  name : String
  params : String
  log : Log
  block : Block
  transaction : Transaction
deriving DecidableEq

/-- The schema of the application (only entity names matter to the engine:
`buildContext` creates one entity model per `schema.entities` entry, each
model delegating to the external entity store). -/
structure Schema where
  entities : List String
deriving DecidableEq

/-- The handler context built by `buildContext`: entity models keyed by the
schema's entity names (their CRUD operations delegate to the external entity
store and are not observed by the engine logic under verification). -/
structure Context where
  entityNames : List String
deriving DecidableEq

/-- The handlers registered for one contract: an object whose keys are event
names and whose values are user handler functions.  A handler receives the
decoded event and the injected context, and either returns or throws. -/
structure ContractHandlers where
  entries : List (String × (LogEvent → Context → Except JsError Unit))

/-- The full `Handlers` object from `readHandlers`: an optional `setup`
handler plus per-contract handler objects keyed by contract name. -/
structure Handlers where
  setup : Option (Context → Except JsError Unit)
  contracts : List (String × ContractHandlers)

/-- The cache store interface (`resources.cacheStore`), §6 of the spec.  A
fixed cache-store state is a fixed function for each operation. -/
structure CacheStore where
  getCachedIntervals : String → List CachedInterval
  getLogs : String → JSNum → JSNum → Option (List String) → List Log
  getBlock : String → Option Block
  getTransaction : String → Option Transaction

/-- The slice of `Resources` read by the event handler service: the contract
list, the cache store, and the two external viem codecs it calls
(`encodeEventTopics`, of which only `topics[0]` is used, and
`decodeEventLog`). -/
structure Resources where
  contracts : List Contract
  cacheStore : CacheStore
  encodeEventTopic0 : List AbiItem → String → String
  decodeEventLogViem : List AbiItem → String → List (Option String) → Option DecodedLog

/-- The per-contract step of `getNewEvents` (lines 269-284): find the cached
interval containing the contract's `startBlock` and return its
`endBlockTimestamp`, or `-1` when none covers it. -/
def contractCachedToTimestamp (res : Resources) (contract : Contract) : JSNum :=
  match (res.cacheStore.getCachedIntervals contract.address).find?
      (fun interval =>
        decide (interval.startBlock ≤ contract.startBlock) &&
        decide (contract.startBlock ≤ interval.endBlock)) with
  | none => ((-1 : Int) : JSNum)
  | some interval => ((interval.endBlockTimestamp : Int) : JSNum)

/-- The `cachedToTimestamps` array of `getNewEvents`: one per-source bound for
every indexed contract. -/
def cachedToTimestamps (res : Resources) : List JSNum :=
  (res.contracts.filter (fun c => c.isIndexed)).map (contractCachedToTimestamp res)

/-- Result record of `getNewEvents`. -/
structure NewEventsResult where
  hasNewLogs : Bool
  toTimestamp : JSNum
  logs : List Log
  totalLogCount : Option Nat
deriving DecidableEq

/-- `EventHandlerService.getNewEvents` (lines 260-348): compute the watermark
`toTimestamp` as the minimum per-source cached bound, bail out with
`hasNewLogs = false` when some source has no covering interval or the minimum
does not exceed `fromTimestamp`, and otherwise fetch the raw logs of every
contract in `(fromTimestamp, toTimestamp]` and sort them by `logSortKey`
(V8's `Array.prototype.sort` is stable, modelled by `List.mergeSort`).
`Math.min(...cachedToTimestamps)` is `foldr min ⊤` (empty array gives
`Infinity`). -/
def getNewEvents (res : Resources) (handlers : Option Handlers)
    (fromTimestamp : JSNum) : NewEventsResult :=
  let contracts := res.contracts.filter (fun c => c.isIndexed)
  let cached := cachedToTimestamps res
  if ((-1 : Int) : JSNum) ∈ cached then
    { hasNewLogs := false, logs := [], toTimestamp := fromTimestamp,
      totalLogCount := none }
  else
    let toTimestamp := cached.foldr min ⊤
    if toTimestamp ≤ fromTimestamp then
      { hasNewLogs := false, logs := [], toTimestamp := fromTimestamp,
        totalLogCount := none }
    else
      let results := contracts.map (fun contract =>
        let hs := handlers.getD { setup := none, contracts := [] }
        let contractHandlers :=
          (hs.contracts.lookup contract.name).getD { entries := [] }
        let eventNames := contractHandlers.entries.map Prod.fst
        let eventSigHashes := eventNames.map (fun eventName =>
          res.encodeEventTopic0 contract.abi eventName)
        let logs := res.cacheStore.getLogs contract.address fromTimestamp
          toTimestamp (some eventSigHashes)
        let totalLogs := res.cacheStore.getLogs contract.address fromTimestamp
          toTimestamp none
        (logs, totalLogs.length))
      let totalLogCount := (results.map Prod.snd).sum
      let logs := ((results.map Prod.fst).flatten).mergeSort
        (fun a b => decide (a.logSortKey ≤ b.logSortKey))
      { hasNewLogs := true, toTimestamp := toTimestamp, logs := logs,
        totalLogCount := some totalLogCount }

/-- `EventHandlerService.buildLogEvent` (lines 381-456): resolve the log's
contract, the contract's handlers, the decoded ABI event and the matching
handler — each miss is a silent skip (`.ok none`) — then load the referenced
block and transaction from the cache store, throwing
(`.error`) when either is absent. -/
def buildLogEvent (res : Resources) (handlers : Handlers) (log : Log) :
    Except JsError (Option ((LogEvent → Context → Except JsError Unit) × LogEvent)) :=
  match res.contracts.find? (fun contract => contract.address == log.address) with
  | none => .ok none
  | some contract =>
    match handlers.contracts.lookup contract.name with
    | none => .ok none
    | some contractHandlers =>
      match res.decodeEventLogViem
          (contract.abi.filter (fun item => item.type != "constructor"))
          log.data [some log.topic0, log.topic1, log.topic2, log.topic3] with
      | none => .ok none
      | some decodedLog =>
        match contractHandlers.entries.lookup decodedLog.eventName with
        | none => .ok none
        | some handler =>
          match res.cacheStore.getBlock log.blockHash with
          | none => .error (.blockNotFound log.blockHash)
          | some block =>
            match res.cacheStore.getTransaction log.transactionHash with
            | none => .error (.transactionNotFound log.transactionHash)
            | some transaction =>
              .ok (some (handler,
                { name := decodedLog.eventName, params := decodedLog.args,
                  log := log, block := block, transaction := transaction }))

/-- A task on the serialized handler queue: `SETUP` or `LOG`. -/
inductive EventHandlerTask where
  | setup
  | log (log : Log)

/-- An emission on the service's `Emittery` channel (§6 progress events). -/
inductive EmittedEvent where
  | taskStarted
  | taskCompleted (timestamp : Option Int)
  | eventsAdded (handledCount totalCount : Nat) (fromTimestamp toTimestamp : JSNum)
  | eventsProcessed (count : Nat) (toTimestamp : JSNum)
  | eventQueueReset
deriving DecidableEq

/-- A structured handler error as submitted to the error sink
(`EventHandlerError`; the stack trace / code frame produced by the external
`getStackTraceAndCodeFrame` helper are not modelled). -/
structure EventHandlerError where
  eventName : String
  blockNumber : Option Int
  params : Option String
  cause : JsError
deriving DecidableEq

/-- The queue built by `createEventQueue`: its pending tasks plus the
handler set and context captured by the worker closure. -/
structure QueueState where
  tasks : List EventHandlerTask
  handlers : Handlers
  context : Context

/-- The mutable state of one `EventHandlerService` instance, together with
the external error sink (`resources.errors`) and the trace of emitted
progress events. -/
structure EngineState where
  handlers : Option Handlers
  schema : Option Schema
  queue : Option QueueState
  isBackfillStarted : Bool
  eventsHandledToTimestamp : JSNum
  currentLogEventBlockNumber : Int
  emitted : List EmittedEvent
  handlerErrors : List EventHandlerError

/-- Emit one progress event (append to the emission trace). -/
def emitEvent (st : EngineState) (e : EmittedEvent) : EngineState :=
  { st with emitted := st.emitted ++ [e] }

/-- Modelled from the spec: the external Error Sink interface
(`submitHandlerError(error)`) — it records the submitted error. -/
def submitHandlerError (st : EngineState) (e : EventHandlerError) : EngineState :=
  { st with handlerErrors := st.handlerErrors ++ [e] }

/-- Modelled from the spec: the external Error Sink interface
(`isHandlerError() -> bool`) — true once any handler error was submitted. -/
def isHandlerError (st : EngineState) : Bool :=
  !st.handlerErrors.isEmpty

/-- Number of `taskStarted` emissions in the trace: one per task the queue
worker actually began executing. -/
def startedCount (st : EngineState) : Nat :=
  st.emitted.countP (fun e => e == EmittedEvent.taskStarted)

/-- `buildContext` (lines 350-379): build the injected handler context from
the schema (one entity model per entity, delegating to the external entity
store). -/
def buildContext (schema : Schema) : Context :=
  { entityNames := schema.entities }

/-- The body of `eventHandlerWorker` (lines 165-246) for one task, run
against the handler set and context captured by `createEventQueue`.  The
returned `Bool` is true when the worker called `queue.clear()` (a handler
threw), telling the drain loop to discard the remaining tasks.  A throw from
`buildLogEvent` propagates out of the worker (`.error`). -/
def runWorkerTask (res : Resources) (qhandlers : Handlers) (context : Context)
    (st : EngineState) (task : EventHandlerTask) :
    Except JsError (EngineState × Bool) :=
  let st := emitEvent st .taskStarted
  match task with
  | .setup =>
    match qhandlers.setup with
    | none => .ok (st, false)
    | some setupHandler =>
      match setupHandler context with
      | .ok _ => .ok (emitEvent st (.taskCompleted none), false)
      | .error e =>
        let st := submitHandlerError st
          { eventName := "setup", blockNumber := none, params := none, cause := e }
        .ok (emitEvent st (.taskCompleted none), true)
  | .log log =>
    match buildLogEvent res qhandlers log with
    | .error e => .error e
    | .ok none => .ok (st, false)
    | .ok (some (handler, event)) =>
      let st := { st with currentLogEventBlockNumber := event.block.number }
      match handler event context with
      | .ok _ =>
        .ok (emitEvent st (.taskCompleted (some event.block.timestamp)), false)
      | .error e =>
        let st := submitHandlerError st
          { eventName := event.name, blockNumber := some event.block.number,
            params := some event.params, cause := e }
        .ok (emitEvent st (.taskCompleted (some event.block.timestamp)), true)

/-- Modelled from the spec: the queue of `createQueue` drains with
concurrency 1, running tasks strictly in enqueue order; `queue.clear()`
discards every task still pending. -/
def drainQueue (res : Resources) (qhandlers : Handlers) (context : Context) :
    List EventHandlerTask → EngineState → Except JsError EngineState
  | [], st => .ok st
  | task :: rest, st =>
    match runWorkerTask res qhandlers context st task with
    | .error e => .error e
    | .ok (st', cleared) =>
      if cleared then .ok st' else drainQueue res qhandlers context rest st'

/-- `createEventQueue` (lines 156-258): a fresh paused queue whose worker
closure captures the given handlers and the context built from the schema. -/
def createEventQueue (handlers : Handlers) (schema : Schema) : QueueState :=
  { tasks := [], handlers := handlers, context := buildContext schema }

/-- The body of the `runExclusive` critical section of `processEvents`
(lines 115-148): fetch new events past the watermark, enqueue them, emit
`eventsAdded`, drain the queue, advance the watermark and emit
`eventsProcessed`. -/
def processEventsBody (res : Resources) (st : EngineState) :
    Except JsError EngineState :=
  match st.queue with
  | none => .ok st
  | some q =>
    let r := getNewEvents res st.handlers st.eventsHandledToTimestamp
    if !r.hasNewLogs then .ok st
    else
      let newTasks := r.logs.map EventHandlerTask.log
      let allTasks := q.tasks ++ newTasks
      let st1 := { st with queue := some { q with tasks := allTasks } }
      let st2 := emitEvent st1 (.eventsAdded r.logs.length
        (r.totalLogCount.getD r.logs.length)
        st.eventsHandledToTimestamp r.toTimestamp)
      match drainQueue res q.handlers q.context allTasks st2 with
      | .error e => .error e
      | .ok st3 =>
        let st4 := { st3 with
          queue := st3.queue.map (fun qq => { qq with tasks := [] }),
          eventsHandledToTimestamp := r.toTimestamp }
        .ok (emitEvent st4 (.eventsProcessed r.logs.length r.toTimestamp))

/-- `processEvents` (lines 110-154).  The `cancelled` flag models the
`async-mutex` cancellation delivered by `resetEventQueue` to this call's
lock acquisition (Modelled from the spec: a cancelled cycle rejects with
`E_CANCELED` before its body runs); the `catch` swallows exactly
`E_CANCELED` and rethrows everything else. -/
def processEvents (res : Resources) (cancelled : Bool) (st : EngineState) :
    Except JsError EngineState :=
  if !st.isBackfillStarted then .ok st
  else if isHandlerError st then .ok st
  else
    let attempt : Except JsError EngineState :=
      if cancelled then .error .eCanceled else processEventsBody res st
    match attempt with
    | .ok st' => .ok st'
    | .error e => if e = JsError.eCanceled then .ok st else .error e

/-- Append a task to the queue (`queue.addTask`). -/
def addTask (st : EngineState) (task : EventHandlerTask) : EngineState :=
  { st with queue := st.queue.map (fun q => { q with tasks := q.tasks ++ [task] }) }

/-- `resetEventQueue` (lines 75-108): adopt the new handler/schema bindings;
when both are present, cancel and replace the cycle mutex (the cancellation
reaches in-flight cycles through the `cancelled` flag of `processEvents`),
reset the watermark to 0, rebuild the queue from the new bindings, emit
`eventQueueReset`, and — when a setup handler exists — enqueue a single
`SETUP` task and emit `eventsAdded` for it. -/
def resetEventQueue (newHandlers : Option Handlers) (newSchema : Option Schema)
    (st : EngineState) : EngineState :=
  let handlers := match newHandlers with | some h => some h | none => st.handlers
  let schema := match newSchema with | some s => some s | none => st.schema
  let st := { st with handlers := handlers, schema := schema }
  match handlers, schema with
  | some hs, some sch =>
    let st := { st with
      eventsHandledToTimestamp := ((0 : Int) : JSNum),
      queue := some (createEventQueue hs sch) }
    let st := emitEvent st .eventQueueReset
    match hs.setup with
    | some _ =>
      let st := addTask st .setup
      emitEvent st (.eventsAdded 1 1 st.eventsHandledToTimestamp
        st.eventsHandledToTimestamp)
    | none => st
  | _, _ => st

/-! ## The event-decoder worker (`processEvents` in the decoder worker) -/

/-- A raw log inside a `RawEvent` (decoder worker input). -/
structure RawLog where
  topics : List String
  data : String
deriving DecidableEq

/-- A raw call trace inside a `RawEvent`. -/
structure RawTrace where
  input : String
  output : String
deriving DecidableEq

/-- A raw event row handed to the decoder worker: a source index, a chain id,
a checkpoint, and the raw chain primitives (block payloads are opaque). -/
structure RawEventD where
  sourceIndex : Nat
  chainId : Nat
  checkpoint : String
  block : String
  transaction : Option String
  transactionReceipt : Option String
  log : Option RawLog
  trace : Option RawTrace
deriving DecidableEq

/-- A decoding source for the worker: the `type`/`filter.type` tags plus the
two ABI lookup tables (`abiEvents.bySelector`, `abiFunctions.bySelector`),
each mapping a selector to `(safeName, item)` with the ABI item opaque. -/
structure DecSource where
  name : String
  type : String
  filterType : String
  abiEventsBySelector : String → Option (String × String)
  abiFunctionsBySelector : String → Option (String × String)

/-- The typed payload of a decoded event (`block` / `log` / `callTrace`
variants); decoded args/results are opaque strings. -/
inductive EventPayload where
  | block (block : String)
  | log (name : String) (args : String) (log : RawLog) (block : String)
      (transaction : Option String) (transactionReceipt : Option String)
  | callTrace (args : String) (result : String) (trace : RawTrace)
      (block : String) (transaction : Option String)
      (transactionReceipt : Option String)
deriving DecidableEq

/-- A decoded, typed event produced by the worker. -/
structure DecodedEvent where
  type : String
  chainId : Nat
  checkpoint : String
  name : String
  payload : EventPayload
deriving DecidableEq

/-- The external ABI codecs used by the decoder worker: the worker-local
`decodeEventLog` helper (whose internals call viem's `decodeAbiParameters`)
and viem's `decodeFunctionData` / `decodeFunctionResult`.  Each either
returns decoded args or throws. -/
structure DecodeEnv where
  decodeEventLog : String → String → List String → Except JsError String
  decodeFunctionData : String → String → Except JsError (String × String)
  decodeFunctionResult : String → String → String → Except JsError String

/-- One iteration of the decoder worker's loop over `events`: decode one raw
row to at most one typed event.  `.ok none` is a dropped row (the `catch {
continue }` paths and the tag fall-throughs); `.error` models the `TypeError`
thrown outside any `try` when `sources[event.sourceIndex]` is undefined. -/
def decodeRawEvent (env : DecodeEnv) (sources : List DecSource)
    (event : RawEventD) : Except JsError (Option DecodedEvent) :=
  match sources[event.sourceIndex]? with
  | none => .error (.userError "TypeError: cannot read type of undefined")
  | some source =>
    if source.type == "block" then
      .ok (some
        { type := "block", chainId := event.chainId,
          checkpoint := event.checkpoint, name := source.name ++ ":block",
          payload := .block event.block })
    else if source.type == "contract" then
      if source.filterType == "log" then
        .ok (match event.log with
          | none => none
          | some log =>
            match log.topics[0]? with
            | none => none
            | some topic0 =>
              if topic0 == "" then none
              else match source.abiEventsBySelector topic0 with
                | none => none
                | some (safeName, item) =>
                  match env.decodeEventLog item log.data log.topics with
                  | .error _ => none
                  | .ok args =>
                    some
                      { type := "log", chainId := event.chainId,
                        checkpoint := event.checkpoint,
                        name := source.name ++ ":" ++ safeName,
                        payload := .log safeName args log event.block
                          event.transaction event.transactionReceipt })
      else if source.filterType == "callTrace" then
        .ok (match event.trace with
          | none => none
          | some trace =>
            let selector := (trace.input.take 10).toLower
            match source.abiFunctionsBySelector selector with
            | none => none
            | some (safeName, item) =>
              match env.decodeFunctionData item trace.input with
              | .error _ => none
              | .ok (functionName, args) =>
                match env.decodeFunctionResult item trace.output functionName with
                | .error _ => none
                | .ok result =>
                  some
                    { type := "callTrace", chainId := event.chainId,
                      checkpoint := event.checkpoint,
                      name := source.name ++ "." ++ safeName,
                      payload := .callTrace args result trace event.block
                        event.transaction event.transactionReceipt })
      else .ok none
    else .ok none

/-- The decoder worker's `processEvents(events, sources)`: iterate over the
raw rows in order, pushing each successfully decoded event. -/
def processEventsDecoder (env : DecodeEnv) (sources : List DecSource) :
    List RawEventD → Except JsError (List DecodedEvent)
  | [] => .ok []
  | event :: rest =>
    match decodeRawEvent env sources event with
    | .error e => .error e
    | .ok r =>
      match processEventsDecoder env sources rest with
      | .error e => .error e
      | .ok out =>
        match r with
        | none => .ok out
        | some d => .ok (d :: out)

/-! ## The worker pool (`workerPool.ts`) -/

/-- The `chunkSize` of `execute`: `Math.ceil(chunk.length / workers.length)`
(for at least one worker; `cpus().length` is always positive). -/
def chunkSize (workersLength : Nat) (chunk : List α) : Nat :=
  (chunk.length + workersLength - 1) / workersLength

/-- The `workerChunks` of `execute` (lines 63-66): split the batch into
`workers.length` contiguous slices `chunk.slice(i*chunkSize, (i+1)*chunkSize)`
and drop the empty ones. -/
def workerChunks (workersLength : Nat) (chunk : List α) : List (List α) :=
  ((List.range workersLength).map (fun i =>
    (chunk.drop (i * chunkSize workersLength chunk)).take
      (chunkSize workersLength chunk))).filter
    (fun c => decide (0 < c.length))

/-- `execute` (lines 60-84): send each sub-chunk to its worker (modelled by a
per-chunk decode function, the round trip through `postMessage`/`message`
being the worker-pool wire contract) and concatenate the results in sub-chunk
order (`Promise.all` preserves order; `results.flat()`). -/
def executePool (decodeF : List α → List β) (workersLength : Nat)
    (chunk : List α) : List β :=
  ((workerChunks workersLength chunk).map decodeF).flatten

/-! ## `graph-ts-ponder` conversion utilities -/

/-- The hex digit characters of JavaScript's `Number.prototype.toString(16)`
(lower case). -/
def hexDigitChar (n : Nat) : Char :=
  if n < 10 then Char.ofNat (48 + n) else Char.ofNat (87 + n)

/-- `byte.toString(16)` for a natural number: minimal-length base-16 digits,
lower case. -/
def natToHexChars (n : Nat) : List Char :=
  if _h : n < 16 then [hexDigitChar n]
  else natToHexChars (n / 16) ++ [hexDigitChar (n % 16)]
decreasing_by exact Nat.div_lt_self (by omega) (by omega)

/-- `String.prototype.padStart(width, pad)` on a character list. -/
def padStart (width : Nat) (pad : Char) (s : List Char) : List Char :=
  List.replicate (width - s.length) pad ++ s

/-- `bytesToHex` from `conversion.ts`: `'0x'` followed by each byte as two
padded hex digits (`reduce` over the bytes). -/
def bytesToHex (bytes : List Nat) : String :=
  ⟨('0' :: 'x' :: []) ++
    bytes.foldl (fun str byte => str ++ padStart 2 '0' (natToHexChars byte)) []⟩

/-- The chunking of the regex `/.{1,2}/g`: greedy runs of two characters, a
final odd character alone.  (`.` does not match line terminators, but hex
strings contain none.) -/
def regexChunks2 : List Char → List (List Char)
  | [] => []
  | [c] => [[c]]
  | a :: b :: rest => [a, b] :: regexChunks2 rest

/-- The numeric value of one hex digit accepted by `parseInt(_, 16)`. -/
def hexDigitValue (c : Char) : Option Nat :=
  if '0' ≤ c ∧ c ≤ '9' then some (c.toNat - 48)
  else if 'a' ≤ c ∧ c ≤ 'f' then some (c.toNat - 87)
  else if 'A' ≤ c ∧ c ≤ 'F' then some (c.toNat - 55)
  else none

/-- Accumulate the leading hex digits (the tail of `parseInt(_, 16)`). -/
def parseIntHexAux (acc : Nat) : List Char → Nat
  | [] => acc
  | c :: rest =>
    match hexDigitValue c with
    | none => acc
    | some v => parseIntHexAux (16 * acc + v) rest

/-- JavaScript's `parseInt(s, 16)`: the value of the longest leading run of
hex digits, `NaN` (here `none`) when the first character is not a digit. -/
def parseIntHex (s : List Char) : Option Nat :=
  match s with
  | [] => none
  | c :: rest =>
    match hexDigitValue c with
    | none => none
    | some v => some (parseIntHexAux v rest)

/-- `Uint8Array.from` element conversion: `NaN` becomes `0`, other values are
truncated modulo 256. -/
def toUint8 (v : Option Nat) : Nat :=
  (v.getD 0) % 256

/-- `hexToBytes` from `conversion.ts`: strip a leading `'0x'`, chunk the rest
with `/.{1,2}/g` and parse each chunk with `parseInt(_, 16)` into a
`Uint8Array`.  On the empty string the regex match is `null` and the
subsequent `.map` throws (`none`). -/
def hexToBytes (hexString : String) : Option (List Nat) :=
  let cs := hexString.data
  let cs := if cs.take 2 = ['0', 'x'] then cs.drop 2 else cs
  match cs with
  | [] => none
  | _ => some ((regexChunks2 cs).map (fun chunk => toUint8 (parseIntHex chunk)))

/-! ## Derived notions used to state the claims -/

/-- The observable outcome of running the worker on one `LOG` task (it does
not depend on the engine state: `buildLogEvent` and the user handler read
only the resources, handler set, context and log). -/
inductive TaskOutcome where
  | skipped
  | completed (event : LogEvent)
  | failed (event : LogEvent) (e : JsError)
  | threw (e : JsError)
deriving DecidableEq

/-- Classify a `LOG` task: skipped (no contract/handler/ABI match), completed
(handler returned), failed (handler threw) or threw (missing referenced
block/transaction). -/
def classifyLogTask (res : Resources) (qhandlers : Handlers) (context : Context)
    (log : Log) : TaskOutcome :=
  match buildLogEvent res qhandlers log with
  | .error e => .threw e
  | .ok none => .skipped
  | .ok (some (handler, event)) =>
    match handler event context with
    | .ok _ => .completed event
    | .error e => .failed event e

/-- A task outcome that lets the drain continue: skipped or completed. -/
def isCleanOutcome : TaskOutcome → Bool
  | .skipped => true
  | .completed _ => true
  | .failed _ _ => false
  | .threw _ => false

/-- The structured error the worker submits when the handler of `event`
throws `e`: it carries the failing event's name, block number and params. -/
def failureError (event : LogEvent) (e : JsError) : EventHandlerError :=
  { eventName := event.name, blockNumber := some event.block.number,
    params := some event.params, cause := e }

/-- A cached interval covers a block when `startBlock ≤ block ≤ endBlock`. -/
def coversStart (interval : CachedInterval) (block : Int) : Prop :=
  interval.startBlock ≤ block ∧ block ≤ interval.endBlock

/-- The cached intervals of one source are pairwise disjoint. -/
def DisjointIntervals (intervals : List CachedInterval) : Prop :=
  intervals.Pairwise (fun i j => i.endBlock < j.startBlock ∨ j.endBlock < i.startBlock)

instance (i : CachedInterval) (b : Int) : Decidable (coversStart i b) :=
  inferInstanceAs (Decidable (_ ∧ _))

instance (l : List CachedInterval) : Decidable (DisjointIntervals l) :=
  inferInstanceAs (Decidable (l.Pairwise _))

/-- The spec's watermark: the minimum, over the indexed sources, of a given
per-source bound. -/
def specMinBound (res : Resources) (bound : Contract → Int) : JSNum :=
  ((res.contracts.filter (fun c => c.isIndexed)).map
    (fun c => ((bound c : Int) : JSNum))).foldr min ⊤

/-- The decoded event (if any) that one raw row contributes to the decoder
worker's output. -/
def decodedRow (env : DecodeEnv) (sources : List DecSource)
    (event : RawEventD) : Option DecodedEvent :=
  match decodeRawEvent env sources event with
  | .ok r => r
  | .error _ => none

/-- Recursive characterization of `workerChunks`: peel off `chunkSize`-long
slices until the list (or the worker budget) runs out. -/
def chunksSpec (s : Nat) : Nat → List α → List (List α)
  | 0, _ => []
  | w + 1, l => if l.isEmpty then [] else l.take s :: chunksSpec s w (l.drop s)

/-! ## Concrete fixtures for counterexamples and witnesses -/

/-- A cached interval covering blocks 0-100 whose end block is at
timestamp 5. -/
def exInterval : CachedInterval :=
  { startBlock := 0, endBlock := 100, endBlockTimestamp := 5 }

/-- One indexed contract starting at block 10. -/
def exContract : Contract :=
  { name := "Pair", address := "0xa", isIndexed := true, startBlock := 10, abi := [] }

/-- A cache store holding exactly `exInterval` for `exContract`. -/
def exStore : CacheStore :=
  { getCachedIntervals := fun address => if address == "0xa" then [exInterval] else [],
    getLogs := fun _ _ _ _ => [],
    getBlock := fun _ => none,
    getTransaction := fun _ => none }

/-- Resources with the single contract `exContract` over `exStore`. -/
def exRes : Resources :=
  { contracts := [exContract], cacheStore := exStore,
    encodeEventTopic0 := fun _ eventName => eventName,
    decodeEventLogViem := fun _ _ _ => none }

/-- Two indexed contracts whose covering intervals end at timestamps 50
and 30. -/
def wContractA : Contract :=
  { name := "TokenA", address := "0xaa", isIndexed := true, startBlock := 10, abi := [] }

/-- Second contract of the two-source watermark witness. -/
def wContractB : Contract :=
  { name := "TokenB", address := "0xbb", isIndexed := true, startBlock := 5, abi := [] }

/-- Cache store for the two-source watermark witness. -/
def wStore : CacheStore :=
  { getCachedIntervals := fun address =>
      if address == "0xaa" then [{ startBlock := 0, endBlock := 100, endBlockTimestamp := 50 }]
      else if address == "0xbb" then [{ startBlock := 0, endBlock := 60, endBlockTimestamp := 30 }]
      else [],
    getLogs := fun _ _ _ _ => [],
    getBlock := fun _ => none,
    getTransaction := fun _ => none }

/-- Resources of the two-source watermark witness. -/
def wRes : Resources :=
  { contracts := [wContractA, wContractB], cacheStore := wStore,
    encodeEventTopic0 := fun _ eventName => eventName,
    decodeEventLogViem := fun _ _ _ => none }

/-- The per-source bound of the two-source watermark witness. -/
def wBound (c : Contract) : Int :=
  if c.name == "TokenA" then 50 else 30

/-- An engine state whose watermark (10) already passed `exRes`'s cached
bound (5). -/
def exState : EngineState :=
  { handlers := none, schema := none, queue := none, isBackfillStarted := true,
    eventsHandledToTimestamp := ((10 : Int) : JSNum),
    currentLogEventBlockNumber := 0, emitted := [], handlerErrors := [] }

/-- Handlers with a setup handler and no contract handlers. -/
def wHandlersSetup : Handlers :=
  { setup := some (fun _ => .ok ()), contracts := [] }

/-- A small schema. -/
def wSchema : Schema := { entities := ["Account"] }

/-- Contract for the handler-failure and missing-data fixtures. -/
def hContract : Contract :=
  { name := "Pair", address := "0xa", isIndexed := true, startBlock := 0, abi := [] }

/-- A log row whose `data` field drives the fixture decoder. -/
def hLog (d : String) : Log :=
  { address := "0xa", logSortKey := 0, blockHash := "0xbh", transactionHash := "0xth",
    data := d, topic0 := "0xt0", topic1 := none, topic2 := none, topic3 := none }

/-- Cache store with the referenced block and transaction present. -/
def hStore : CacheStore :=
  { getCachedIntervals := fun _ => [],
    getLogs := fun _ _ _ _ => [],
    getBlock := fun _ => some { hash := "0xbh", number := 7, timestamp := 99 },
    getTransaction := fun _ => some { hash := "0xth" } }

/-- Resources whose decoder names the event after the log's `data` field. -/
def hRes : Resources :=
  { contracts := [hContract], cacheStore := hStore,
    encodeEventTopic0 := fun _ eventName => eventName,
    decodeEventLogViem := fun _ data _ => some { eventName := data, args := "0xargs" } }

/-- Handlers for `hContract`: the `Ok` handler returns, the `Boom` handler
throws. -/
def hHandlers : Handlers :=
  { setup := none,
    contracts := [("Pair",
      { entries := [("Ok", fun _ _ => .ok ()),
                    ("Boom", fun _ _ => .error (.userError "boom"))] })] }

/-- The decoded event the fixture produces for the throwing log. -/
def hBoomEvent : LogEvent :=
  { name := "Boom", params := "0xargs", log := hLog "Boom",
    block := { hash := "0xbh", number := 7, timestamp := 99 },
    transaction := { hash := "0xth" } }

/-- A fresh engine state with backfill started and no errors. -/
def hState : EngineState :=
  { handlers := some hHandlers, schema := some wSchema,
    queue := some { tasks := [], handlers := hHandlers, context := buildContext wSchema },
    isBackfillStarted := true, eventsHandledToTimestamp := ((0 : Int) : JSNum),
    currentLogEventBlockNumber := 0, emitted := [], handlerErrors := [] }

/-- Resources like `hRes` but whose cache store is missing every block and
transaction. -/
def mRes : Resources :=
  { contracts := [hContract], cacheStore := exStore,
    encodeEventTopic0 := fun _ eventName => eventName,
    decodeEventLogViem := fun _ data _ => some { eventName := data, args := "0xargs" } }

/-- A decoder worker source of `block` type. -/
def dSourceBlock : DecSource :=
  { name := "Chain", type := "block", filterType := "",
    abiEventsBySelector := fun _ => none, abiFunctionsBySelector := fun _ => none }

/-- A decoder worker contract/log source recognising selector `0xsel`. -/
def dSourceLog : DecSource :=
  { name := "Pair", type := "contract", filterType := "log",
    abiEventsBySelector := fun s => if s == "0xsel" then some ("Swap", "item") else none,
    abiFunctionsBySelector := fun _ => none }

/-- A decode environment that succeeds on everything. -/
def dEnv : DecodeEnv :=
  { decodeEventLog := fun _ _ _ => .ok "0xargs",
    decodeFunctionData := fun _ input => .ok ("fn", input),
    decodeFunctionResult := fun _ output _ => .ok output }

/-- A raw block row for source 0. -/
def dEventBlock : RawEventD :=
  { sourceIndex := 0, chainId := 1, checkpoint := "cp1", block := "b1",
    transaction := none, transactionReceipt := none, log := none, trace := none }

/-- A raw log row for source 1 with a matching selector. -/
def dEventLogGood : RawEventD :=
  { sourceIndex := 1, chainId := 2, checkpoint := "cp2", block := "b2",
    transaction := some "t2", transactionReceipt := none,
    log := some { topics := ["0xsel"], data := "0xdata" }, trace := none }

/-- A raw log row for source 1 with an unmatched selector (dropped). -/
def dEventLogBad : RawEventD :=
  { sourceIndex := 1, chainId := 2, checkpoint := "cp3", block := "b3",
    transaction := some "t3", transactionReceipt := none,
    log := some { topics := ["0xother"], data := "0xdata" }, trace := none }

/-! ## Watermark computation (claims C1, C3, C7, C8) -/

/-- Two disjoint cached intervals cannot both cover the same block. -/
theorem covering_interval_unique (intervals : List CachedInterval) (block : Int)
    (hd : DisjointIntervals intervals) (i j : CachedInterval)
    (hi : i ∈ intervals) (hj : j ∈ intervals)
    (hci : coversStart i block) (hcj : coversStart j block) : i = j := by
  by_contra hne
  have hsym : Symmetric (fun i j : CachedInterval =>
      i.endBlock < j.startBlock ∨ j.endBlock < i.startBlock) :=
    fun a b h => h.symm
  have hr := List.Pairwise.forall hsym hd hi hj hne
  rcases hci with ⟨h1, h2⟩
  rcases hcj with ⟨h3, h4⟩
  rcases hr with h | h <;> omega

/-- When a source's disjoint cached intervals contain one covering its start
block, the per-source step of `getNewEvents` returns that interval's
`endBlockTimestamp`. -/
theorem contractCachedToTimestamp_covered (res : Resources) (c : Contract)
    (hd : DisjointIntervals (res.cacheStore.getCachedIntervals c.address))
    (i : CachedInterval) (hi : i ∈ res.cacheStore.getCachedIntervals c.address)
    (hcov : coversStart i c.startBlock) :
    contractCachedToTimestamp res c = ((i.endBlockTimestamp : Int) : JSNum) := by
  unfold contractCachedToTimestamp
  have hp : (fun interval : CachedInterval =>
      decide (interval.startBlock ≤ c.startBlock) &&
      decide (c.startBlock ≤ interval.endBlock)) i = true := by
    simp only [Bool.and_eq_true, decide_eq_true_eq]
    exact ⟨hcov.1, hcov.2⟩
  have hsome : ((res.cacheStore.getCachedIntervals c.address).find?
      (fun interval => decide (interval.startBlock ≤ c.startBlock) &&
        decide (c.startBlock ≤ interval.endBlock))).isSome := by
    exact List.find?_isSome.mpr ⟨i, hi, hp⟩
  cases hf : (res.cacheStore.getCachedIntervals c.address).find?
      (fun interval => decide (interval.startBlock ≤ c.startBlock) &&
        decide (c.startBlock ≤ interval.endBlock)) with
  | none => rw [hf] at hsome; simp at hsome
  | some j =>
    have hjmem := List.mem_of_find?_eq_some hf
    have hpj := List.find?_some hf
    have hcovj : coversStart j c.startBlock := by
      simp only [Bool.and_eq_true, decide_eq_true_eq] at hpj
      exact ⟨hpj.1, hpj.2⟩
    have hji : j = i := covering_interval_unique _ _ hd j i hjmem hi hcovj hcov
    subst hji
    rfl

/-- When no cached interval covers the source's start block, the per-source
step of `getNewEvents` returns the `-1` sentinel. -/
theorem contractCachedToTimestamp_uncovered (res : Resources) (c : Contract)
    (h : ∀ i ∈ res.cacheStore.getCachedIntervals c.address, ¬ coversStart i c.startBlock) :
    contractCachedToTimestamp res c = ((-1 : Int) : JSNum) := by
  unfold contractCachedToTimestamp
  have hnone : (res.cacheStore.getCachedIntervals c.address).find?
      (fun interval => decide (interval.startBlock ≤ c.startBlock) &&
        decide (c.startBlock ≤ interval.endBlock)) = none := by
    refine List.find?_eq_none.mpr (fun x hx => ?_)
    have := h x hx
    simp only [coversStart, not_and] at this
    simp only [Bool.and_eq_true, decide_eq_true_eq, not_and]
    exact this
  rw [hnone]

/-- C1 (amended).  For disjoint cached intervals: (a) when every indexed
source has a (nonnegative) covering bound and the minimum of those bounds
exceeds `fromTimestamp`, `getNewEvents` returns that minimum as
`toTimestamp` with `hasNewLogs = true`; (b) when some indexed source has no
interval covering its configured start block, `hasNewLogs` is false
regardless of the other sources' coverage.  (As stated, the claim fails when
the minimum bound does not exceed `fromTimestamp`: the code then returns
`toTimestamp = fromTimestamp`, see the counterexample.) -/
theorem getNewEvents_watermark (res : Resources) (handlers : Option Handlers)
    (fromTs : JSNum) (bound : Contract → Int)
    (hdisj : ∀ c ∈ res.contracts,
      DisjointIntervals (res.cacheStore.getCachedIntervals c.address)) :
    ((∀ c ∈ res.contracts.filter (fun k => k.isIndexed),
        0 ≤ bound c ∧ ∃ i ∈ res.cacheStore.getCachedIntervals c.address,
          coversStart i c.startBlock ∧ i.endBlockTimestamp = bound c) →
      fromTs < specMinBound res bound →
        (getNewEvents res handlers fromTs).toTimestamp = specMinBound res bound ∧
        (getNewEvents res handlers fromTs).hasNewLogs = true) ∧
    (∀ c ∈ res.contracts.filter (fun k => k.isIndexed),
      (∀ i ∈ res.cacheStore.getCachedIntervals c.address,
        ¬ coversStart i c.startBlock) →
      (getNewEvents res handlers fromTs).hasNewLogs = false) := by
  constructor
  · intro hcov hlt
    have hmap : cachedToTimestamps res =
        (res.contracts.filter (fun k => k.isIndexed)).map
          (fun c => ((bound c : Int) : JSNum)) := by
      unfold cachedToTimestamps
      refine List.map_congr_left (fun c hc => ?_)
      obtain ⟨hpos, i, hi, hci, hb⟩ := hcov c hc
      have hcmem : c ∈ res.contracts := List.mem_of_mem_filter hc
      rw [contractCachedToTimestamp_covered res c (hdisj c hcmem) i hi hci, hb]
    have hnosentinel : ¬ ((-1 : Int) : JSNum) ∈ cachedToTimestamps res := by
      rw [hmap]
      intro hmem
      obtain ⟨c, hc, hval⟩ := List.mem_map.mp hmem
      have hpos := (hcov c hc).1
      have : bound c = -1 := by exact_mod_cast hval
      omega
    have hmin : (cachedToTimestamps res).foldr min ⊤ = specMinBound res bound := by
      rw [hmap]; rfl
    have hnle : ¬ ((cachedToTimestamps res).foldr min ⊤ ≤ fromTs) := by
      rw [hmin]; exact not_le.mpr hlt
    simp only [getNewEvents]
    rw [if_neg hnosentinel, if_neg hnle]
    exact ⟨hmin, rfl⟩
  · intro c hc hunc
    have hsentinel : ((-1 : Int) : JSNum) ∈ cachedToTimestamps res := by
      unfold cachedToTimestamps
      exact List.mem_map.mpr ⟨c, hc, contractCachedToTimestamp_uncovered res c hunc⟩
    simp only [getNewEvents]
    rw [if_pos hsentinel]

/-- C1 counterexample: for `exRes` the sole per-source bound (the
`endBlockTimestamp` of the interval covering the source's start block)
is 5, yet at `fromTimestamp = 10` `getNewEvents` returns
`toTimestamp = 10`, not the minimum per-source bound 5. -/
theorem getNewEvents_toTimestamp_ne_min_bound :
    cachedToTimestamps exRes = [((5 : Int) : JSNum)] ∧
    (getNewEvents exRes none ((10 : Int) : JSNum)).toTimestamp ≠ ((5 : Int) : JSNum) := by
  constructor
  · decide
  · decide

/-- Witness for C1 (amended): two sources with covering bounds 50 and 30 at
`fromTimestamp = 0` yield `toTimestamp = 30` and `hasNewLogs = true`. -/
theorem getNewEvents_watermark_witness :
    (getNewEvents wRes none ((0 : Int) : JSNum)).toTimestamp = specMinBound wRes wBound ∧
    (getNewEvents wRes none ((0 : Int) : JSNum)).hasNewLogs = true :=
  (getNewEvents_watermark wRes none ((0 : Int) : JSNum) wBound (by decide)).1
    (by decide) (by decide)

/-- C3.  The log batch handed to the queue by `getNewEvents` is sorted
non-decreasingly by `logSortKey`: every pair of adjacent entries is in
order. -/
theorem getNewEvents_logs_sorted (res : Resources) (handlers : Option Handlers)
    (fromTs : JSNum) :
    (getNewEvents res handlers fromTs).logs.Pairwise
      (fun a b => a.logSortKey ≤ b.logSortKey) := by
  simp only [getNewEvents]
  split
  · exact List.Pairwise.nil
  · split
    · exact List.Pairwise.nil
    · refine (List.sorted_mergeSort ?_ ?_ _).imp ?_
      · intro a b c hab hbc
        simp only [decide_eq_true_eq] at *
        omega
      · intro a b
        simp only [Bool.or_eq_true, decide_eq_true_eq]
        omega
      · intro a b h
        simpa using h

/-- C7.  When the minimum cached bound does not exceed the watermark, or
some indexed source has no covering interval, the cycle reports
`hasNewLogs = false` and `processEvents` returns the state unchanged: no
tasks enqueued, nothing emitted, watermark untouched. -/
theorem processEvents_no_new_logs_frame (res : Resources) (st : EngineState)
    (h : (cachedToTimestamps res).foldr min ⊤ ≤ st.eventsHandledToTimestamp ∨
      ((-1 : Int) : JSNum) ∈ cachedToTimestamps res) :
    (getNewEvents res st.handlers st.eventsHandledToTimestamp).hasNewLogs = false ∧
    processEvents res false st = .ok st := by
  have hfalse : (getNewEvents res st.handlers st.eventsHandledToTimestamp).hasNewLogs = false := by
    unfold getNewEvents
    by_cases hm : ((-1 : Int) : JSNum) ∈ cachedToTimestamps res
    · simp only [hm, if_true]
    · rcases h with h | h
      · simp only [hm, if_false, h, if_true]
      · exact absurd h hm
  refine ⟨hfalse, ?_⟩
  have hbody : processEventsBody res st = .ok st := by
    unfold processEventsBody
    cases hq : st.queue with
    | none => rfl
    | some q => simp only [hfalse, Bool.not_false, if_true]
  unfold processEvents
  by_cases hb : st.isBackfillStarted <;> by_cases herr : isHandlerError st <;>
    simp [hb, herr, hbody]

/-- Witness for C7: with `exRes` and watermark 10 past the cached bound 5,
the cycle reports no new logs and leaves the state unchanged. -/
theorem processEvents_no_new_logs_frame_witness :
    (getNewEvents exRes exState.handlers exState.eventsHandledToTimestamp).hasNewLogs = false ∧
    processEvents exRes false exState = .ok exState :=
  processEvents_no_new_logs_frame exRes exState (by decide)

/-- C8.  `getNewEvents` is deterministic: it depends only on the contract
list, the cache-store state and the topic encoder, so two invocations with
the same `fromTimestamp` over the same fixed cache-store state return the
same result (same `toTimestamp`, same `hasNewLogs`, same raw-log set). -/
theorem getNewEvents_deterministic (r1 r2 : Resources) (handlers : Option Handlers)
    (fromTs : JSNum)
    (hc : r1.contracts = r2.contracts) (hs : r1.cacheStore = r2.cacheStore)
    (he : r1.encodeEventTopic0 = r2.encodeEventTopic0) :
    getNewEvents r1 handlers fromTs = getNewEvents r2 handlers fromTs := by
  obtain ⟨c1, s1, e1, d1⟩ := r1
  obtain ⟨c2, s2, e2, d2⟩ := r2
  cases hc
  cases hs
  cases he
  rfl

/-- Witness for C8: two invocations over `exRes` agree. -/
theorem getNewEvents_deterministic_witness :
    getNewEvents exRes none ((10 : Int) : JSNum) =
    getNewEvents exRes none ((10 : Int) : JSNum) :=
  getNewEvents_deterministic exRes exRes none ((10 : Int) : JSNum) rfl rfl rfl

/-! ## Reset protocol (claim C5) and missing referenced data (claim C9) -/

/-- C5.  A cycle that receives the mutex cancellation triggered by
`resetEventQueue` terminates by returning the state unchanged — the
cancellation is swallowed (`.ok`, never surfaced as an error) and nothing
(in particular no `eventsProcessed`) is emitted.  `resetEventQueue` with new
handler/schema bindings resets the watermark `eventsHandledToTimestamp` to 0
(so the next cycle starts from `fromTimestamp = 0`), rebuilds the queue and
context from the new bindings, and — the setup handler existing — enqueues a
single `SETUP` task, before any event task is enqueued. -/
theorem resetEventQueue_spec (res : Resources) (st : EngineState)
    (hs : Handlers) (sch : Schema) (hsetup : hs.setup.isSome = true) :
    (∀ s : EngineState, processEvents res true s = .ok s) ∧
    (resetEventQueue (some hs) (some sch) st).eventsHandledToTimestamp = ((0 : Int) : JSNum) ∧
    (resetEventQueue (some hs) (some sch) st).queue =
      some { tasks := [EventHandlerTask.setup], handlers := hs,
             context := buildContext sch } ∧
    (resetEventQueue (some hs) (some sch) st).handlers = some hs ∧
    (resetEventQueue (some hs) (some sch) st).schema = some sch := by
  obtain ⟨f, hf⟩ := Option.isSome_iff_exists.mp hsetup
  refine ⟨?_, ?_⟩
  · intro s
    unfold processEvents
    by_cases hb : s.isBackfillStarted <;> by_cases he : isHandlerError s <;>
      simp [hb, he]
  · simp [resetEventQueue, createEventQueue, addTask, emitEvent, hf]

/-- Witness for C5: resetting with a setup handler yields watermark 0 and a
queue holding exactly the `SETUP` task; a cancelled cycle is a no-op. -/
theorem resetEventQueue_spec_witness :
    processEvents exRes true exState = .ok exState ∧
    (resetEventQueue (some wHandlersSetup) (some wSchema) exState).eventsHandledToTimestamp =
      ((0 : Int) : JSNum) ∧
    (resetEventQueue (some wHandlersSetup) (some wSchema) exState).queue =
      some { tasks := [EventHandlerTask.setup], handlers := wHandlersSetup,
             context := buildContext wSchema } := by
  have h := resetEventQueue_spec exRes exState wHandlersSetup wSchema rfl
  exact ⟨h.1 exState, h.2.1, h.2.2.1⟩

/-- C9.  For a log being processed, a missing referenced block or
transaction in the cache store makes `buildLogEvent` throw immediately,
whereas a missing contract, missing contract handlers, unmatched ABI event
or missing event handler merely skips the log (`.ok none`). -/
theorem buildLogEvent_missing_data (res : Resources) (qhandlers : Handlers)
    (log : Log) :
    (∀ contract contractHandlers decodedLog handler,
      res.contracts.find? (fun k => k.address == log.address) = some contract →
      qhandlers.contracts.lookup contract.name = some contractHandlers →
      res.decodeEventLogViem
        (contract.abi.filter (fun item => item.type != "constructor"))
        log.data [some log.topic0, log.topic1, log.topic2, log.topic3] = some decodedLog →
      contractHandlers.entries.lookup decodedLog.eventName = some handler →
      (res.cacheStore.getBlock log.blockHash = none →
        buildLogEvent res qhandlers log = .error (.blockNotFound log.blockHash)) ∧
      (∀ block, res.cacheStore.getBlock log.blockHash = some block →
        res.cacheStore.getTransaction log.transactionHash = none →
        buildLogEvent res qhandlers log = .error (.transactionNotFound log.transactionHash))) ∧
    (res.contracts.find? (fun k => k.address == log.address) = none →
      buildLogEvent res qhandlers log = .ok none) ∧
    (∀ contract,
      res.contracts.find? (fun k => k.address == log.address) = some contract →
      qhandlers.contracts.lookup contract.name = none →
      buildLogEvent res qhandlers log = .ok none) ∧
    (∀ contract contractHandlers,
      res.contracts.find? (fun k => k.address == log.address) = some contract →
      qhandlers.contracts.lookup contract.name = some contractHandlers →
      res.decodeEventLogViem
        (contract.abi.filter (fun item => item.type != "constructor"))
        log.data [some log.topic0, log.topic1, log.topic2, log.topic3] = none →
      buildLogEvent res qhandlers log = .ok none) ∧
    (∀ contract contractHandlers decodedLog,
      res.contracts.find? (fun k => k.address == log.address) = some contract →
      qhandlers.contracts.lookup contract.name = some contractHandlers →
      res.decodeEventLogViem
        (contract.abi.filter (fun item => item.type != "constructor"))
        log.data [some log.topic0, log.topic1, log.topic2, log.topic3] = some decodedLog →
      contractHandlers.entries.lookup decodedLog.eventName = none →
      buildLogEvent res qhandlers log = .ok none) := by
  refine ⟨?_, ?_, ?_, ?_, ?_⟩
  · intro contract contractHandlers decodedLog handler h1 h2 h3 h4
    constructor
    · intro h5
      simp only [buildLogEvent, h1, h2, h3, h4, h5]
    · intro block h5 h6
      simp only [buildLogEvent, h1, h2, h3, h4, h5, h6]
  · intro h1
    simp only [buildLogEvent, h1]
  · intro contract h1 h2
    simp only [buildLogEvent, h1, h2]
  · intro contract contractHandlers h1 h2 h3
    simp only [buildLogEvent, h1, h2, h3]
  · intro contract contractHandlers decodedLog h1 h2 h3 h4
    simp only [buildLogEvent, h1, h2, h3, h4]

/-- Witness for C9: with every step resolving but the block absent from the
cache store, `buildLogEvent` throws `blockNotFound`. -/
theorem buildLogEvent_missing_data_witness :
    buildLogEvent mRes hHandlers (hLog "Ok") = .error (.blockNotFound "0xbh") :=
  ((buildLogEvent_missing_data mRes hHandlers (hLog "Ok")).1 hContract
    { entries := [("Ok", fun _ _ => .ok ()),
                  ("Boom", fun _ _ => .error (.userError "boom"))] }
    { eventName := "Ok", args := "0xargs" } (fun _ _ => .ok ())
    rfl rfl rfl rfl).1 rfl

/-! ## Handler failure halts the queue (claim C2) -/

/-- Emitting a progress event leaves the error sink untouched. -/
theorem handlerErrors_emitEvent (st : EngineState) (e : EmittedEvent) :
    (emitEvent st e).handlerErrors = st.handlerErrors := rfl

/-- Emitting a progress event bumps `startedCount` exactly on
`taskStarted`. -/
theorem startedCount_emitEvent (st : EngineState) (e : EmittedEvent) :
    startedCount (emitEvent st e) =
      startedCount st + (if e = EmittedEvent.taskStarted then 1 else 0) := by
  simp [startedCount, emitEvent, List.countP_append, List.countP_cons, beq_iff_eq]

/-- A clean `LOG` task (skipped or completed) leaves the error sink alone,
does not clear the queue, and starts exactly one task. -/
theorem runWorkerTask_log_clean (res : Resources) (qh : Handlers) (ctx : Context)
    (st : EngineState) (log : Log)
    (h : isCleanOutcome (classifyLogTask res qh ctx log) = true) :
    ∃ st2, runWorkerTask res qh ctx st (.log log) = .ok (st2, false) ∧
      st2.handlerErrors = st.handlerErrors ∧
      startedCount st2 = startedCount st + 1 := by
  unfold classifyLogTask at h
  cases hb : buildLogEvent res qh log with
  | error e2 =>
    simp only [hb, isCleanOutcome] at h
    exact Bool.noConfusion h
  | ok r =>
    simp only [hb] at h
    cases r with
    | none =>
      refine ⟨emitEvent st .taskStarted, ?_, rfl, ?_⟩
      · simp only [runWorkerTask, hb]
      · simp [startedCount_emitEvent]
    | some pr =>
      obtain ⟨handler, event⟩ := pr
      cases hh : handler event ctx with
      | ok u =>
        refine ⟨emitEvent
            { emitEvent st EmittedEvent.taskStarted with
                currentLogEventBlockNumber := event.block.number }
            (EmittedEvent.taskCompleted (some event.block.timestamp)),
          ?_, rfl, ?_⟩
        · simp only [runWorkerTask, hb, hh]
        · simp [startedCount, emitEvent, List.countP_append, List.countP_cons,
            beq_iff_eq]
      | error e2 =>
        simp only [hh, isCleanOutcome] at h
        exact Bool.noConfusion h

/-- A failing `LOG` task submits exactly the structured error carrying the
decoded event's name and block number, clears the queue, and starts exactly
one task. -/
theorem runWorkerTask_log_failed (res : Resources) (qh : Handlers) (ctx : Context)
    (st : EngineState) (log : Log) (event : LogEvent) (e : JsError)
    (h : classifyLogTask res qh ctx log = .failed event e) :
    ∃ st2, runWorkerTask res qh ctx st (.log log) = .ok (st2, true) ∧
      st2.handlerErrors = st.handlerErrors ++ [failureError event e] ∧
      startedCount st2 = startedCount st + 1 := by
  unfold classifyLogTask at h
  cases hb : buildLogEvent res qh log with
  | error e2 =>
    simp only [hb] at h
    exact TaskOutcome.noConfusion h
  | ok r =>
    simp only [hb] at h
    cases r with
    | none => exact TaskOutcome.noConfusion h
    | some pr =>
      obtain ⟨handler, event2⟩ := pr
      cases hh : handler event2 ctx with
      | ok u =>
        simp only [hh] at h
        exact TaskOutcome.noConfusion h
      | error e2 =>
        simp only [hh, TaskOutcome.failed.injEq] at h
        obtain ⟨hev, he2⟩ := h
        subst hev
        subst he2
        refine ⟨emitEvent
            (submitHandlerError
              { emitEvent st EmittedEvent.taskStarted with
                  currentLogEventBlockNumber := event2.block.number }
              (failureError event2 e2))
            (EmittedEvent.taskCompleted (some event2.block.timestamp)),
          ?_, rfl, ?_⟩
        · simp only [runWorkerTask, hb, hh, failureError]
        · simp [startedCount, emitEvent, submitHandlerError,
            List.countP_append, List.countP_cons, beq_iff_eq]

/-- Once any handler error is recorded, `processEvents` refuses to start a
new cycle: it returns the state unchanged. -/
theorem processEvents_halted (res : Resources) (cancelled : Bool)
    (st : EngineState) (h : st.handlerErrors ≠ []) :
    processEvents res cancelled st = .ok st := by
  unfold processEvents
  have he : isHandlerError st = true := by
    simp [isHandlerError, h]
  by_cases hb : st.isBackfillStarted <;> simp [hb, he]

/-- C2.  If the task after `pre` clean tasks throws, the drain executes
exactly `pre.length + 1` tasks (the tasks after the failing one never run),
the error sink receives exactly one structured error carrying the failing
event's name and block number, `isHandlerError` becomes true, and from then
on `processEvents` starts no new cycle (cancelled or not) — only a Reset
builds a fresh generation. -/
theorem handler_failure_halts_queue (res : Resources) (qh : Handlers)
    (ctx : Context) (st : EngineState) (pre : List Log) (bad : Log)
    (post : List Log) (event : LogEvent) (e : JsError)
    (hpre : ∀ lg ∈ pre, isCleanOutcome (classifyLogTask res qh ctx lg) = true)
    (hbad : classifyLogTask res qh ctx bad = .failed event e)
    (hnoerr : st.handlerErrors = []) :
    ∃ st2, drainQueue res qh ctx
        ((pre ++ bad :: post).map EventHandlerTask.log) st = .ok st2 ∧
      st2.handlerErrors = [failureError event e] ∧
      isHandlerError st2 = true ∧
      startedCount st2 = startedCount st + pre.length + 1 ∧
      (∀ cancelled, processEvents res cancelled st2 = .ok st2) := by
  induction pre generalizing st with
  | nil =>
    obtain ⟨st2, hrun, herr, hcount⟩ :=
      runWorkerTask_log_failed res qh ctx st bad event e hbad
    have herr2 : st2.handlerErrors = [failureError event e] := by
      rw [herr, hnoerr]
      rfl
    refine ⟨st2, ?_, herr2, ?_, ?_, ?_⟩
    · simp only [List.nil_append, List.map_cons, drainQueue, hrun, if_true]
    · simp [isHandlerError, herr2]
    · simpa using hcount
    · intro cancelled
      exact processEvents_halted res cancelled st2 (by simp [herr2])
  | cons lg pre ih =>
    have hclean := hpre lg (List.mem_cons_self lg pre)
    obtain ⟨st1, hrun, herr1, hcount1⟩ :=
      runWorkerTask_log_clean res qh ctx st lg hclean
    obtain ⟨st2, hdrain, herr2, hhe, hcount2, hpe⟩ :=
      ih st1 (fun x hx => hpre x (List.mem_cons_of_mem lg hx))
        (herr1.trans hnoerr)
    refine ⟨st2, ?_, herr2, hhe, ?_, hpe⟩
    · simp only [List.cons_append, List.map_cons, drainQueue, hrun, if_false]
      exact hdrain
    · rw [hcount2, hcount1]
      simp only [List.length_cons]
      omega

/-- Witness for C2: five queued log tasks, the third throwing — the drain
stops after three, records one structured error for the `Boom` event at
block 7, and `processEvents` refuses to run again. -/
theorem handler_failure_halts_queue_witness :
    ∃ st2, drainQueue hRes hHandlers (buildContext wSchema)
        (([hLog "Ok", hLog "Ok"] ++ hLog "Boom" :: [hLog "Ok", hLog "Ok"]).map
          EventHandlerTask.log) hState = .ok st2 ∧
      st2.handlerErrors = [failureError hBoomEvent (.userError "boom")] ∧
      isHandlerError st2 = true ∧
      startedCount st2 = startedCount hState + 2 + 1 ∧
      (∀ cancelled, processEvents hRes cancelled st2 = .ok st2) :=
  handler_failure_halts_queue hRes hHandlers (buildContext wSchema) hState
    [hLog "Ok", hLog "Ok"] (hLog "Boom") [hLog "Ok", hLog "Ok"] hBoomEvent
    (.userError "boom") (by decide) (by decide) rfl

/-! ## Decoder worker exactness (claim C4) -/

/-- With a valid source index the decoder never throws: the row yields its
`decodedRow` (at most one typed event). -/
theorem decodeRawEvent_valid_ok (env : DecodeEnv) (sources : List DecSource)
    (event : RawEventD) (h : event.sourceIndex < sources.length) :
    decodeRawEvent env sources event = .ok (decodedRow env sources event) := by
  have hsome : sources[event.sourceIndex]? = some sources[event.sourceIndex] :=
    List.getElem?_eq_getElem h
  have hex : ∃ r, decodeRawEvent env sources event = .ok r := by
    simp only [decodeRawEvent, hsome]
    repeat' split
    all_goals exact ⟨_, rfl⟩
  obtain ⟨r, hr⟩ := hex
  rw [hr]
  unfold decodedRow
  rw [hr]

/-- Every decoded event keeps its raw row's `chainId` and `checkpoint`. -/
theorem decodedRow_preserves (env : DecodeEnv) (sources : List DecSource)
    (event : RawEventD) (d : DecodedEvent)
    (h : decodedRow env sources event = some d) :
    d.chainId = event.chainId ∧ d.checkpoint = event.checkpoint := by
  unfold decodedRow at h
  cases hdec : decodeRawEvent env sources event with
  | error e =>
    rw [hdec] at h
    exact Option.noConfusion h
  | ok r =>
    simp only [hdec] at h
    subst h
    unfold decodeRawEvent at hdec
    repeat' split at hdec
    all_goals try dsimp only at hdec
    all_goals repeat' split at hdec
    all_goals try (cases hdec; exact ⟨rfl, rfl⟩)
    all_goals simp_all

/-- The length of a `filterMap` counts the rows on which the function
succeeds. -/
theorem length_filterMap_eq_countP (f : α → Option β) (l : List α) :
    (l.filterMap f).length = l.countP (fun a => (f a).isSome) := by
  induction l with
  | nil => rfl
  | cons a l ih =>
    cases hf : f a <;>
      simp [List.filterMap_cons, List.countP_cons, hf, ih]

/-- The decoder loop returns exactly the per-row results in order. -/
theorem processEventsDecoder_eq_filterMap (env : DecodeEnv)
    (sources : List DecSource) (events : List RawEventD) :
    (∀ event ∈ events, event.sourceIndex < sources.length) →
    processEventsDecoder env sources events =
      .ok (events.filterMap (decodedRow env sources)) := by
  induction events with
  | nil => intro _; rfl
  | cons ev rest ih =>
    intro h
    have h1 := h ev (List.mem_cons_self ev rest)
    have hr := ih (fun x hx => h x (List.mem_cons_of_mem ev hx))
    unfold processEventsDecoder
    rw [decodeRawEvent_valid_ok env sources ev h1, hr]
    cases hd : decodedRow env sources ev <;>
      simp [List.filterMap_cons, hd]

/-- C4.  For a batch with valid source indices the decoder produces exactly
one typed event per successfully-decoded row (never more), preserving each
row's `chainId` and `checkpoint`; rows with no matching ABI entry or a
throwing decode are dropped, so the output count equals the number of
successfully-decoded rows. -/
theorem processEvents_decoder_exact (env : DecodeEnv) (sources : List DecSource)
    (events : List RawEventD)
    (hidx : ∀ event ∈ events, event.sourceIndex < sources.length) :
    processEventsDecoder env sources events =
      .ok (events.filterMap (decodedRow env sources)) ∧
    (events.filterMap (decodedRow env sources)).length =
      events.countP (fun event => (decodedRow env sources event).isSome) ∧
    (∀ event ∈ events, ∀ d, decodedRow env sources event = some d →
      d.chainId = event.chainId ∧ d.checkpoint = event.checkpoint) :=
  ⟨processEventsDecoder_eq_filterMap env sources events hidx,
   length_filterMap_eq_countP (decodedRow env sources) events,
   fun event _ d hd => decodedRow_preserves env sources event d hd⟩

/-- Witness for C4: a three-row batch (a block row, a matched log row and an
unmatched log row) over two sources. -/
theorem processEvents_decoder_exact_witness :
    processEventsDecoder dEnv [dSourceBlock, dSourceLog]
      [dEventBlock, dEventLogGood, dEventLogBad] =
      .ok ([dEventBlock, dEventLogGood, dEventLogBad].filterMap
        (decodedRow dEnv [dSourceBlock, dSourceLog])) ∧
    ([dEventBlock, dEventLogGood, dEventLogBad].filterMap
      (decodedRow dEnv [dSourceBlock, dSourceLog])).length =
      [dEventBlock, dEventLogGood, dEventLogBad].countP
        (fun event => (decodedRow dEnv [dSourceBlock, dSourceLog] event).isSome) ∧
    (∀ event ∈ [dEventBlock, dEventLogGood, dEventLogBad],
      ∀ d, decodedRow dEnv [dSourceBlock, dSourceLog] event = some d →
      d.chainId = event.chainId ∧ d.checkpoint = event.checkpoint) :=
  processEvents_decoder_exact dEnv [dSourceBlock, dSourceLog]
    [dEventBlock, dEventLogGood, dEventLogBad] (by decide)

/-! ## Worker pool chunking (claim C6) -/

/-- `chunksSpec` of the empty batch is empty. -/
theorem chunksSpec_nil (s w : Nat) : chunksSpec s w ([] : List α) = [] := by
  cases w <;> simp [chunksSpec]

/-- A nonempty chunk list comes from a nonempty batch. -/
theorem chunksSpec_ne_nil (s w : Nat) (l : List α)
    (h : chunksSpec s w l ≠ []) : l ≠ [] := by
  intro hl
  subst hl
  exact h (chunksSpec_nil s w)

/-- The range/slice/filter computation of `execute` equals the recursive
slicing `chunksSpec` (for a positive slice size). -/
theorem workerChunks_eq_chunksSpec (s : Nat) (hs : 1 ≤ s) :
    ∀ (w : Nat) (l : List α),
      (((List.range w).map (fun i => (l.drop (i * s)).take s)).filter
        (fun c => decide (0 < c.length))) = chunksSpec s w l := by
  intro w
  induction w with
  | zero => intro l; rfl
  | succ w ih =>
    intro l
    rw [List.range_succ_eq_map]
    rw [List.map_cons, List.map_map]
    have htail : ((List.range w).map
        ((fun i => (l.drop (i * s)).take s) ∘ Nat.succ)) =
        (List.range w).map (fun i => ((l.drop s).drop (i * s)).take s) := by
      refine List.map_congr_left (fun i _ => ?_)
      simp only [Function.comp]
      rw [List.drop_drop, Nat.succ_mul, Nat.add_comm]
    rw [htail]
    rw [List.filter_cons]
    rw [ih (l.drop s)]
    by_cases hl : l = []
    · subst hl
      simp [chunksSpec_nil, chunksSpec]
    · have hkeep : decide (0 < ((List.drop (0 * s) l).take s).length) = true := by
        simp only [Nat.zero_mul, List.drop_zero, List.length_take,
          decide_eq_true_eq]
        have := List.length_pos.mpr hl
        omega
      rw [hkeep]
      simp only [if_true]
      have hne : l.isEmpty = false := by
        simp [List.isEmpty_iff, hl]
      simp only [chunksSpec, hne, Bool.false_eq_true, if_false]
      rw [Nat.zero_mul, List.drop_zero]

/-- Concatenating the chunks restores the batch when the slices cover it. -/
theorem chunksSpec_flatten (s : Nat) :
    ∀ (w : Nat) (l : List α), l.length ≤ w * s →
      (chunksSpec s w l).flatten = l := by
  intro w
  induction w with
  | zero =>
    intro l h
    simp only [Nat.zero_mul, Nat.le_zero] at h
    rw [List.length_eq_zero.mp h]
    rfl
  | succ w ih =>
    intro l h
    by_cases hl : l.isEmpty
    · rw [List.isEmpty_iff.mp hl]
      rfl
    · simp only [chunksSpec, hl, Bool.false_eq_true, if_false]
      rw [List.flatten_cons]
      rw [ih (l.drop s) ?_]
      · exact List.take_append_drop s l
      · rw [Nat.succ_mul] at h
        simp only [List.length_drop]
        omega

/-- At most `w` chunks are produced. -/
theorem chunksSpec_length_le (s : Nat) :
    ∀ (w : Nat) (l : List α), (chunksSpec s w l).length ≤ w := by
  intro w
  induction w with
  | zero => intro l; exact Nat.le_refl 0
  | succ w ih =>
    intro l
    by_cases hl : l.isEmpty
    · simp [chunksSpec, hl]
    · simp only [chunksSpec, hl, Bool.false_eq_true, if_false, List.length_cons]
      exact Nat.succ_le_succ (ih (l.drop s))

/-- Every produced chunk is nonempty and no longer than the slice size. -/
theorem chunksSpec_mem (s : Nat) (hs : 1 ≤ s) :
    ∀ (w : Nat) (l : List α), ∀ c ∈ chunksSpec s w l, c ≠ [] ∧ c.length ≤ s := by
  intro w
  induction w with
  | zero => intro l c hc; exact absurd hc (List.not_mem_nil c)
  | succ w ih =>
    intro l c hc
    by_cases hl : l.isEmpty
    · rw [chunksSpec, if_pos hl] at hc
      exact absurd hc (List.not_mem_nil c)
    · rw [chunksSpec, if_neg (by simp [hl])] at hc
      rcases List.mem_cons.mp hc with rfl | hmem
      · have hlne : l ≠ [] := fun h => by rw [h] at hl; exact hl rfl
        have hlen := List.length_pos.mpr hlne
        refine ⟨?_, List.length_take_le s l⟩
        intro htake
        have hlen2 := congrArg List.length htake
        simp only [List.length_take, List.length_nil] at hlen2
        omega
      · exact ih (l.drop s) c hmem

/-- Every chunk except possibly the last has exactly the slice size. -/
theorem chunksSpec_dropLast (s : Nat) :
    ∀ (w : Nat) (l : List α), ∀ c ∈ (chunksSpec s w l).dropLast, c.length = s := by
  intro w
  induction w with
  | zero => intro l c hc; exact absurd hc (List.not_mem_nil c)
  | succ w ih =>
    intro l c hc
    by_cases hl : l.isEmpty
    · rw [chunksSpec, if_pos hl] at hc
      exact absurd hc (List.not_mem_nil c)
    · rw [chunksSpec, if_neg (by simp [hl])] at hc
      cases hr : chunksSpec s w (l.drop s) with
      | nil =>
        rw [hr] at hc
        exact absurd hc (List.not_mem_nil c)
      | cons a t =>
        rw [hr, List.dropLast_cons₂] at hc
        rcases List.mem_cons.mp hc with rfl | hmem
        · have hdrop : l.drop s ≠ [] := by
            intro hdn
            rw [hdn, chunksSpec_nil] at hr
            exact List.noConfusion hr
          have hlen : s < l.length := by
            have := List.length_pos.mpr hdrop
            simp only [List.length_drop] at this
            omega
          simp only [List.length_take]
          omega
        · rw [← hr] at hmem
          exact ih (l.drop s) c hmem

/-- C6.  `execute` splits a batch of K raw events into at most `coreCount`
contiguous sub-chunks of size `ceil(K / coreCount)` (the last possibly
smaller), drops empty sub-chunks, and concatenates per-worker results in
sub-chunk order; in particular the concatenation of the sub-chunks equals the
original batch in order. -/
theorem execute_chunking_spec {α : Type} (w : Nat) (chunk : List α) (hw : 1 ≤ w) :
    (workerChunks w chunk).flatten = chunk ∧
    executePool (fun c => c) w chunk = chunk ∧
    (workerChunks w chunk).length ≤ w ∧
    (∀ c ∈ workerChunks w chunk, c ≠ [] ∧ c.length ≤ chunkSize w chunk) ∧
    (∀ c ∈ (workerChunks w chunk).dropLast, c.length = chunkSize w chunk) := by
  by_cases hc : chunk = []
  · subst hc
    have hwc : workerChunks w ([] : List α) = [] := by
      rw [workerChunks, List.filter_eq_nil_iff]
      intro c hmem
      obtain ⟨i, _, rfl⟩ := List.mem_map.mp hmem
      simp
    refine ⟨?_, ?_, ?_, ?_, ?_⟩ <;> simp [hwc, executePool]
  · have hlen : 1 ≤ chunk.length := List.length_pos.mpr hc
    have hs : 1 ≤ chunkSize w chunk := by
      rw [chunkSize, Nat.le_div_iff_mul_le (by omega)]
      omega
    have heq : workerChunks w chunk = chunksSpec (chunkSize w chunk) w chunk :=
      workerChunks_eq_chunksSpec (chunkSize w chunk) hs w chunk
    have hcover : chunk.length ≤ w * chunkSize w chunk := by
      have key := Nat.lt_div_mul_add (a := chunk.length + w - 1) (b := w) (by omega)
      rw [chunkSize, Nat.mul_comm]
      generalize hq : (chunk.length + w - 1) / w = q at key ⊢
      have hqw : q * w + w = (q + 1) * w := by ring
      generalize q * w = n at key ⊢
      omega
    refine ⟨?_, ?_, ?_, ?_, ?_⟩
    · rw [heq]
      exact chunksSpec_flatten _ w chunk hcover
    · rw [executePool, List.map_id']
      rw [heq]
      exact chunksSpec_flatten _ w chunk hcover
    · rw [heq]
      exact chunksSpec_length_le _ w chunk
    · rw [heq]
      exact chunksSpec_mem _ hs w chunk
    · rw [heq]
      exact chunksSpec_dropLast _ w chunk

/-- Witness for C6: a 5-element batch over 2 workers splits into chunks of
3 and 2 whose concatenation is the batch. -/
theorem execute_chunking_spec_witness :
    (workerChunks 2 [10, 20, 30, 40, 50]).flatten = [10, 20, 30, 40, 50] ∧
    executePool (fun c => c) 2 [10, 20, 30, 40, 50] = [10, 20, 30, 40, 50] ∧
    (workerChunks 2 [10, 20, 30, 40, 50]).length ≤ 2 ∧
    (∀ c ∈ workerChunks 2 [10, 20, 30, 40, 50],
      c ≠ [] ∧ c.length ≤ chunkSize 2 [10, 20, 30, 40, 50]) ∧
    (∀ c ∈ (workerChunks 2 [10, 20, 30, 40, 50]).dropLast,
      c.length = chunkSize 2 [10, 20, 30, 40, 50]) :=
  execute_chunking_spec 2 [10, 20, 30, 40, 50] (by decide)

/-! ## Hex conversion round trip (claim C10) -/

/-- Reading back a hex digit character gives the digit. -/
theorem hexDigitValue_hexDigitChar : ∀ n, n < 16 →
    hexDigitValue (hexDigitChar n) = some n := by
  decide

/-- A byte renders as exactly its two hex digits after padding. -/
theorem padStart_natToHexChars (b : Nat) (hb : b < 256) :
    padStart 2 '0' (natToHexChars b) =
      [hexDigitChar (b / 16), hexDigitChar (b % 16)] := by
  by_cases h16 : b < 16
  · rw [natToHexChars, dif_pos h16]
    rw [Nat.div_eq_of_lt h16, Nat.mod_eq_of_lt h16]
    rfl
  · have hdiv : b / 16 < 16 := by omega
    rw [natToHexChars, dif_neg h16]
    rw [natToHexChars, dif_pos hdiv]
    rfl

/-- `parseInt(_, 16)` of a two-digit chunk. -/
theorem parseIntHex_pair (hi lo : Nat) (h1 : hi < 16) (h2 : lo < 16) :
    parseIntHex [hexDigitChar hi, hexDigitChar lo] = some (16 * hi + lo) := by
  simp only [parseIntHex, hexDigitValue_hexDigitChar hi h1, parseIntHexAux,
    hexDigitValue_hexDigitChar lo h2]

/-- The string `reduce` of `bytesToHex` is the concatenation of the padded
bytes. -/
theorem foldl_append_hex (f : Nat → List Char) :
    ∀ (bytes : List Nat) (acc : List Char),
      bytes.foldl (fun str byte => str ++ f byte) acc =
        acc ++ (bytes.map f).flatten := by
  intro bytes
  induction bytes with
  | nil => intro acc; simp
  | cons b rest ih =>
    intro acc
    simp [ih, List.append_assoc]

/-- The regex `/.{1,2}/g` recovers exactly the two-character groups of the
padded bytes. -/
theorem regexChunks2_flatten_pairs :
    ∀ (bytes : List Nat), (∀ x ∈ bytes, x < 256) →
      regexChunks2 ((bytes.map (fun b => padStart 2 '0' (natToHexChars b))).flatten) =
        bytes.map (fun b => padStart 2 '0' (natToHexChars b)) := by
  intro bytes
  induction bytes with
  | nil => intro _; rfl
  | cons b rest ih =>
    intro h
    have hb := h b (List.mem_cons_self b rest)
    rw [List.map_cons, List.flatten_cons]
    rw [padStart_natToHexChars b hb]
    show regexChunks2 (hexDigitChar (b / 16) :: hexDigitChar (b % 16) ::
      (rest.map (fun b => padStart 2 '0' (natToHexChars b))).flatten) = _
    rw [regexChunks2]
    rw [ih (fun x hx => h x (List.mem_cons_of_mem b hx))]

/-- `hexToBytes` on a `0x`-prefixed nonempty body: strip the prefix, chunk
and parse. -/
theorem hexToBytes_data (body : List Char) (hne : body ≠ []) :
    hexToBytes ⟨'0' :: 'x' :: body⟩ =
      some ((regexChunks2 body).map (fun chunk => toUint8 (parseIntHex chunk))) := by
  unfold hexToBytes
  dsimp only
  rw [if_pos (show List.take 2 ('0' :: 'x' :: body) = ['0', 'x'] from rfl)]
  cases body with
  | nil => exact absurd rfl hne
  | cons c cs2 => rfl

/-- C10.  `hexToBytes` is a left inverse of `bytesToHex` on nonempty byte
arrays (`bytesToHex` pads each byte to two hex digits behind a `0x` prefix,
which `hexToBytes` strips and parses two digits at a time); on the empty
array the regex match of `hexToBytes` is `null` and no value is returned. -/
theorem hexToBytes_bytesToHex_left_inverse :
    (∀ bytes : List Nat, bytes ≠ [] → (∀ x ∈ bytes, x < 256) →
      hexToBytes (bytesToHex bytes) = some bytes) ∧
    hexToBytes (bytesToHex []) = none := by
  constructor
  · intro bytes hne hlt
    have hbody := regexChunks2_flatten_pairs bytes hlt
    have hstr : bytesToHex bytes =
        ⟨'0' :: 'x' ::
          (bytes.map (fun b => padStart 2 '0' (natToHexChars b))).flatten⟩ := by
      unfold bytesToHex
      rw [foldl_append_hex]
      rfl
    have hne2 : (bytes.map (fun b => padStart 2 '0' (natToHexChars b))).flatten ≠ [] := by
      cases bytes with
      | nil => exact absurd rfl hne
      | cons b0 rest =>
        rw [List.map_cons, List.flatten_cons,
          padStart_natToHexChars b0 (hlt b0 (List.mem_cons_self b0 rest))]
        simp
    rw [hstr, hexToBytes_data _ hne2, hbody]
    rw [List.map_map]
    have hid : ∀ x ∈ bytes,
        ((fun chunk => toUint8 (parseIntHex chunk)) ∘
          (fun b => padStart 2 '0' (natToHexChars b))) x = x := by
      intro x hx
      have hx256 := hlt x hx
      simp only [Function.comp]
      rw [padStart_natToHexChars x hx256]
      rw [parseIntHex_pair (x / 16) (x % 16) (by omega) (by omega)]
      simp only [toUint8, Option.getD_some]
      rw [Nat.div_add_mod x 16, Nat.mod_eq_of_lt hx256]
    rw [(List.map_congr_left hid).trans (List.map_id bytes)]
  · rfl

/-- Witness for C10: the round trip on `[171, 0, 15]` (and the empty-array
behaviour follows from the theorem's second conjunct). -/
theorem hexToBytes_bytesToHex_left_inverse_witness :
    hexToBytes (bytesToHex [171, 0, 15]) = some [171, 0, 15] :=
  hexToBytes_bytesToHex_left_inverse.1 [171, 0, 15] (by decide) (by decide)

end Ponder
